import Mathlib

/-!
# script.js : interactive features of the Tech Newbie Diary pages

A shallow embedding of the event handlers of `src/script.js` and the properties
of them that the specification states.

* JavaScript strings are sequences of UTF-16 code units: `JSString = List Nat`.
* Regular expressions are embedded the way ECMAScript defines them: a pattern
  is a `Matcher`, a function of a match state and a continuation, and
  `RegExp.prototype.test` scans the start indices from 0.
* The DOM is explicit state: the handlers are functions from state to state.
-/

namespace Script

/-! ## Strings and character sets -/

/-- A JavaScript string: its UTF-16 code units. -/
abbrev JSString := List Nat

/-- The code units of a string literal of the source (all literals of the
script lie in the Basic Multilingual Plane: one code unit per character). -/
def lit (s : String) : JSString := s.toList.map Char.toNat

/-- ECMAScript `LineTerminator`: LF, CR, LS, PS. -/
def isLineTerminator (c : Nat) : Bool :=
  c == 0x000A || c == 0x000D || c == 0x2028 || c == 0x2029

/-- What `\s` matches and what `String.prototype.trim` strips: ECMAScript
`WhiteSpace` (TAB, VT, FF, SP, NBSP, ZWNBSP and the Unicode space separators)
together with `LineTerminator`. -/
def isWhiteSpace (c : Nat) : Bool :=
  c == 0x0009 || c == 0x000B || c == 0x000C || c == 0x0020 || c == 0x00A0 ||
  c == 0x1680 || (0x2000 ≤ c && c ≤ 0x200A) || c == 0x202F || c == 0x205F ||
  c == 0x3000 || c == 0xFEFF || isLineTerminator c

/-- The class `[A-Za-z]` (no `i` flag, no `u` flag). -/
def isAsciiLetter (c : Nat) : Bool :=
  (0x41 ≤ c && c ≤ 0x5A) || (0x61 ≤ c && c ≤ 0x7A)

/-- The class `\d`: the ten ASCII digits. -/
def isDigit (c : Nat) : Bool := 0x30 ≤ c && c ≤ 0x39

/-- The class `[A-Za-z\s]` of `validateName`. -/
def nameClass (c : Nat) : Bool := isAsciiLetter c || isWhiteSpace c

/-- The class `[^\s@]` of `validateEmail`. -/
def emailClass (c : Nat) : Bool := !(isWhiteSpace c || c == 0x40)

/-- The atom `.` without the `s` flag: anything but a line terminator. -/
def dotClass (c : Nat) : Bool := !isLineTerminator c

/-- `String.prototype.trim`: white space stripped from both ends. -/
def trim (s : JSString) : JSString :=
  ((s.dropWhile isWhiteSpace).reverse.dropWhile isWhiteSpace).reverse

/-! ## Regular expression matching (ECMAScript pattern semantics) -/

/-- The state of a match: the index reached and the input from there on. -/
structure MatchState where
  index : Nat
  rest : JSString

/-- What is still to be matched after a matcher has succeeded. -/
abbrev Continuation := MatchState → Bool

/-- A compiled pattern: tries to match at a state, then calls the continuation. -/
abbrev Matcher := MatchState → Continuation → Bool

/-- The assertion `^` (no `m` flag): only at index 0. -/
def assertStart : Matcher := fun x c => x.index == 0 && c x

/-- The assertion `$` (no `m` flag): only at the end of the input. -/
def assertEnd : Matcher := fun x c => x.rest.isEmpty && c x

/-- A single character of a class (or a single literal character). -/
def charSet (p : Nat → Bool) : Matcher := fun x c =>
  match x.rest with
  | [] => false
  | ch :: r => p ch && c ⟨x.index + 1, r⟩

/-- Sequencing of two pattern terms. -/
def seq (m₁ m₂ : Matcher) : Matcher := fun x c => m₁ x (fun y => m₂ y c)

/-- The positive lookahead `(?= ... )`: the body must match here, nothing is
consumed. -/
def lookahead (m : Matcher) : Matcher := fun x c => m x (fun _ => true) && c x

/-- The greedy quantifier `{min,max}` (`max = none` for `+`, `*`, `{n,}`) on a
character class, as ECMAScript's RepeatMatcher: the mandatory repetitions
first, then as many as possible, giving one back at a time when the
continuation fails. -/
def repeatChars (p : Nat → Bool) (c : Continuation) :
    Nat → Option Nat → Nat → JSString → Bool
  | 0, _, i, [] => c ⟨i, []⟩
  | 0, max, i, ch :: r =>
    if max = some 0 then c ⟨i, ch :: r⟩
    else (p ch && repeatChars p c 0 (max.map (· - 1)) (i + 1) r) || c ⟨i, ch :: r⟩
  | _ + 1, _, _, [] => false
  | min + 1, max, i, ch :: r => p ch && repeatChars p c min (max.map (· - 1)) (i + 1) r

/-- A quantified character class as a matcher. -/
def quantified (p : Nat → Bool) (min : Nat) (max : Option Nat) : Matcher :=
  fun x c => repeatChars p c min max x.index x.rest

/-- The scan of `RegExp.prototype.test` (no `g`, no `y` flag): the pattern is
tried at index `i`, then at each later index up to the end of the input. -/
def testFrom (m : Matcher) : Nat → JSString → Bool
  | i, [] => m ⟨i, []⟩ (fun _ => true)
  | i, ch :: r => m ⟨i, ch :: r⟩ (fun _ => true) || testFrom m (i + 1) r

/-- `regexp.test(s)`. -/
def regExpTest (m : Matcher) (s : JSString) : Bool := testFrom m 0 s

/-! ## The validators of the join form -/

/-- The pattern `/^[A-Za-z\s]{2,40}$/`. -/
def namePattern : Matcher :=
  seq assertStart (seq (quantified nameClass 2 (some 40)) assertEnd)

/-- The pattern `/^[^\s@]+@[^\s@]+\.[^\s@]{2,}$/`. -/
def emailPattern : Matcher :=
  seq assertStart
    (seq (quantified emailClass 1 none)
      (seq (charSet (· == 0x40))
        (seq (quantified emailClass 1 none)
          (seq (charSet (· == 0x2E))
            (seq (quantified emailClass 2 none) assertEnd)))))

/-- The pattern `/^(?=.*\d).{6,}$/`. -/
def passwordPattern : Matcher :=
  seq assertStart
    (seq (lookahead (seq (quantified dotClass 0 none) (charSet isDigit)))
      (seq (quantified dotClass 6 none) assertEnd))

/-- `validateName(name)`. -/
def validateName (name : JSString) : Bool := regExpTest namePattern (trim name)

/-- `validateEmail(email)`. -/
def validateEmail (email : JSString) : Bool := regExpTest emailPattern email

/-- `validatePassword(pwd)`. -/
def validatePassword (pwd : JSString) : Bool := regExpTest passwordPattern pwd


/-- The form `validateEmail` accepts: local part, `@`, domain, `.`, suffix,
every part free of white space and of `@`. -/
def emailForm (s : JSString) : Prop :=
  ∃ l d t, s = l ++ 0x40 :: (d ++ 0x2E :: t) ∧
    1 ≤ l.length ∧ (∀ ch ∈ l, isWhiteSpace ch = false ∧ ch ≠ 0x40) ∧
    1 ≤ d.length ∧ (∀ ch ∈ d, isWhiteSpace ch = false ∧ ch ≠ 0x40) ∧
    2 ≤ t.length ∧ (∀ ch ∈ t, isWhiteSpace ch = false ∧ ch ≠ 0x40)

/-- The form of an e-mail address in the words of the specification: the
suffix is "at least 2 trailing non-whitespace characters". -/
def emailFormClaimed (s : JSString) : Prop :=
  ∃ l d t, s = l ++ 0x40 :: (d ++ 0x2E :: t) ∧
    1 ≤ l.length ∧ (∀ ch ∈ l, isWhiteSpace ch = false ∧ ch ≠ 0x40) ∧
    1 ≤ d.length ∧ (∀ ch ∈ d, isWhiteSpace ch = false ∧ ch ≠ 0x40) ∧
    2 ≤ t.length ∧ (∀ ch ∈ t, isWhiteSpace ch = false)

/-! ## The join form -/

/-- `s.split(' ')[0]`: the part of `s` before its first SPACE (U+0020), all of
`s` when it has none. -/
def splitHead (s : JSString) : JSString := s.takeWhile (· != 0x20)

/-- An `input` element of the form: its value, the value `form.reset()` gives
it back, whether it carries `aria-invalid`, and the identity of its
`parentElement`. -/
structure Input where
  value : JSString
  defaultValue : JSString
  ariaInvalid : Bool
  parent : Nat
deriving DecidableEq

/-- A run of sibling elements in document order, as far as the look-ups of
`.error` elements see it: an element of class `error` with its text (it holds
text only), or any other element with its identity and its children; each
followed by its later siblings. The form itself is the root element. Inputs
are kept apart and name their parent by its identity; the message box is not
of class `error` and is kept apart too. -/
inductive Dom where
  | nil : Dom
  | error (text : JSString) (next : Dom) : Dom
  | elem (id : Nat) (children : Dom) (next : Dom) : Dom
deriving DecidableEq

/-- `querySelector('.error')` over a run of siblings and all their
descendants: the text of the first `.error` element in document order. -/
def Dom.firstError : Dom → Option JSString
  | .nil => none
  | .error t _ => some t
  | .elem _ c n =>
    match firstError c with
    | some t => some t
    | none => firstError n

/-- `err.remove()` for the first `.error` element in document order. -/
def Dom.removeFirstError : Dom → Dom
  | .nil => .nil
  | .error _ n => n
  | .elem i c n =>
    match firstError c with
    | some _ => .elem i (removeFirstError c) n
    | none => .elem i c (removeFirstError n)

/-- `err.textContent = msg` for the first `.error` element in document order. -/
def Dom.setFirstError (msg : JSString) : Dom → Dom
  | .nil => .nil
  | .error _ n => .error msg n
  | .elem i c n =>
    match firstError c with
    | some _ => .elem i (setFirstError msg c) n
    | none => .elem i c (setFirstError msg n)

/-- `appendChild` of a new `.error` element with the given text: it becomes
the last of the siblings. -/
def Dom.appendError (msg : JSString) : Dom → Dom
  | .nil => .error msg .nil
  | .error t n => .error t (appendError msg n)
  | .elem i c n => .elem i c (appendError msg n)

/-- Applies a change to the children of the element with the given identity. -/
def Dom.atChildren (parent : Nat) (f : Dom → Dom) : Dom → Dom
  | .nil => .nil
  | .error t n => .error t (atChildren parent f n)
  | .elem i c n =>
    if i = parent then .elem i (f c) n
    else .elem i (atChildren parent f c) (atChildren parent f n)

/-- The state of one `#join-form`: the three inputs looked up by name at load
(each may be missing), the other controls of the form, the content of the
`.form-message` box (when there is one), and the tree of the form with its
`.error` elements. -/
structure JoinForm where
  nameInput : Option Input
  emailInput : Option Input
  pwdInput : Option Input
  others : List Input
  msgBox : Option JSString
  dom : Dom
deriving DecidableEq

/-- The three validated inputs. -/
inductive Field where
  | name
  | email
  | password
deriving DecidableEq

/-- The input of a field. -/
def JoinForm.input (f : JoinForm) : Field → Option Input
  | .name => f.nameInput
  | .email => f.emailInput
  | .password => f.pwdInput

/-- Stores the new state of the input of a field. -/
def JoinForm.setInput (f : JoinForm) (fld : Field) (inp : Input) : JoinForm :=
  match fld with
  | .name => { f with nameInput := some inp }
  | .email => { f with emailInput := some inp }
  | .password => { f with pwdInput := some inp }

/-- The validator the handlers apply to a field. -/
def validate : Field → JSString → Bool
  | .name => validateName
  | .email => validateEmail
  | .password => validatePassword

/-- The error text the handlers show for a field. -/
def message : Field → JSString
  | .name => lit "Name should be 2–40 letters and spaces only."
  | .email => lit "Please enter a valid email address."
  | .password => lit "Password must be at least 6 chars and include a number."

/-- `showError(input, msg)`: the first `.error` element in the subtree of the
parent of the input gets the text; when there is none, a new one is appended
to the parent; the input gets `aria-invalid`. -/
def showError (inp : Input) (msg : JSString) (dom : Dom) : Input × Dom :=
  ({ inp with ariaInvalid := true },
    dom.atChildren inp.parent (fun c =>
      match c.firstError with
      | none => c.appendError msg
      | some _ => c.setFirstError msg))

/-- `clearError(input)`: the first `.error` element in the subtree of the
parent of the input is removed, if there is one, and `aria-invalid` is removed
from the input. -/
def clearError (inp : Input) (dom : Dom) : Input × Dom :=
  ({ inp with ariaInvalid := false }, dom.atChildren inp.parent Dom.removeFirstError)

/-- `i && clearError(i)` for the input of a field. -/
def clearErrorAt (f : JoinForm) (fld : Field) : JoinForm :=
  match f.input fld with
  | none => f
  | some inp =>
    let r := clearError inp f.dom
    { f.setInput fld r.1 with dom := r.2 }

/-- One validation line of the submit handler:
`if (!input || !validate(input.value)) { if (input) showError(input, msg); valid = false; }`. -/
def checkField (fld : Field) (st : JoinForm × Bool) : JoinForm × Bool :=
  match st.1.input fld with
  | none => (st.1, false)
  | some inp =>
    if validate fld inp.value then st
    else
      let r := showError inp (message fld) st.1.dom
      ({ st.1.setInput fld r.1 with dom := r.2 }, false)

/-- The expression `(nameInput && nameInput.value.trim().split(' ')[0]) || 'Friend'`. -/
def username (nameInput : Option Input) : JSString :=
  match nameInput with
  | none => lit "Friend"
  | some inp =>
    let u := splitHead (trim inp.value)
    if u.isEmpty then lit "Friend" else u

/-- The markup written into the message box on success. -/
def successMarkup (user : JSString) : JSString :=
  lit "<div class=\"success\">Thank you, " ++ user ++
    lit "! You've joined the Tech Newbie Diary</div>"

/-- `form.reset()`: every control gets its default value back. -/
def resetForm (f : JoinForm) : JoinForm :=
  let r : Input → Input := fun i => { i with value := i.defaultValue }
  { f with
    nameInput := f.nameInput.map r
    emailInput := f.emailInput.map r
    pwdInput := f.pwdInput.map r
    others := f.others.map r }

/-- The `submit` handler of the form. -/
def submit (f : JoinForm) : JoinForm :=
  let f := [Field.name, Field.email, Field.password].foldl clearErrorAt f
  let f := { f with msgBox := f.msgBox.map (fun _ => []) }
  let st := checkField .password (checkField .email (checkField .name (f, true)))
  if !st.2 then st.1
  else
    let user := username st.1.nameInput
    let f := { st.1 with msgBox := st.1.msgBox.map (fun _ => successMarkup user) }
    resetForm f

/-- The `input` listener of the input of a field: `clearError(inp)`, then
`showError` with the message of the field when its value is invalid. -/
def inputHandler (fld : Field) (f : JoinForm) : JoinForm :=
  match f.input fld with
  | none => f
  | some inp =>
    let r := clearError inp f.dom
    if validate fld inp.value then { f.setInput fld r.1 with dom := r.2 }
    else
      let r' := showError r.1 (message fld) r.2
      { f.setInput fld r'.1 with dom := r'.2 }

/-- The user replaces the text of a field: the value changes and the `input`
listener runs. -/
def typeInto (fld : Field) (v : JSString) (f : JoinForm) : JoinForm :=
  match f.input fld with
  | none => f
  | some inp => inputHandler fld (f.setInput fld { inp with value := v })

/-- The first whitespace-delimited token of a string, in the words of the
specification: its longest leading run of characters that are not white
space. -/
def firstToken (s : JSString) : JSString := s.takeWhile (fun c => !isWhiteSpace c)

/-- Some input of the form holds an invalid value. -/
def someInvalid (f : JoinForm) : Prop :=
  ∃ fld inp, f.input fld = some inp ∧ validate fld inp.value = false

/-- The form
`<form id=join-form><input name=name><div><input name=email></div>
<div><input name=password></div><div class=form-message></div></form>`
(the form is element 0, the two `div` wrappers are elements 1 and 2) holding
the name "A1", the e-mail "a@b" and the password "abcdef", all invalid. -/
def nestedForm : JoinForm :=
  { nameInput := some ⟨lit "A1", [], false, 0⟩
    emailInput := some ⟨lit "a@b", [], false, 1⟩
    pwdInput := some ⟨lit "abcdef", [], false, 2⟩
    others := []
    msgBox := some []
    dom := .elem 0 (.elem 1 .nil (.elem 2 .nil .nil)) .nil }

/-- A form whose three inputs are children of the form itself (element 0),
holding the invalid name "A1", the invalid e-mail "a@b" and the valid
password "abc123". -/
def flatForm : JoinForm :=
  { nameInput := some ⟨lit "A1", [], false, 0⟩
    emailInput := some ⟨lit "a@b", [], false, 0⟩
    pwdInput := some ⟨lit "abc123", [], false, 0⟩
    others := []
    msgBox := some []
    dom := .elem 0 .nil .nil }

/-! ## The tab switcher -/

/-- An element that has `data-tab-target`, `data-tab` or both (`none`: the
attribute is missing), and whether it has the class `active`. -/
structure TabElem where
  tabTarget : Option JSString
  tab : Option JSString
  active : Bool
deriving DecidableEq

/-- The element is in `tabButtons`: it matches `[data-tab-target]`. -/
def TabElem.isButton (e : TabElem) : Bool := e.tabTarget.isSome

/-- The element is in `tabPanels`: it matches `[data-tab]`. -/
def TabElem.isPanel (e : TabElem) : Bool := e.tab.isSome

/-- `b.classList.remove('active')` for every element of `tabButtons`. -/
def clearButtons (d : List TabElem) : List TabElem :=
  d.map (fun b => if b.isButton then { b with active := false } else b)

/-- The loop over `tabPanels`: `active` is added to a panel whose `data-tab`
equals the target and removed from any other panel. -/
def markPanels (target : JSString) (d : List TabElem) : List TabElem :=
  d.map (fun p =>
    match p.tab with
    | some t => { p with active := t == target }
    | none => p)

/-- The `click` listener of the trigger at position `i` of the document (the
elements with either attribute, in document order; the same element may be a
trigger and a panel). Nothing runs when the element at `i` is no trigger. The
listener writes the class of every trigger and of every panel, so what other
listeners did before it on the same click leaves no trace on them. -/
def clickTab (i : Nat) (d : List TabElem) : List TabElem :=
  match d[i]? with
  | none => d
  | some btn =>
    match btn.tabTarget with
    | none => d
    | some target =>
      markPanels target ((clearButtons d).set i { btn with active := true })

/-- What a click on the trigger at position `i`, with the given target, makes
of the element at position `k`: a panel is marked by its identifier, a trigger
that is no panel is marked when it is the clicked one, anything else is left. -/
def afterClick (target : JSString) (i k : Nat) (e : TabElem) : TabElem :=
  { e with
    active :=
      match e.tab with
      | some t => t == target
      | none => if e.isButton then decide (k = i) else e.active }

/-- The initialisation at load: `if (tabButtons.length) tabButtons[0].click()`. -/
def initTabs (d : List TabElem) : List TabElem :=
  if d.any TabElem.isButton then clickTab (d.findIdx TabElem.isButton) d else d

/-- Load, then the clicks on the triggers at the given positions, in order. -/
def runTabs (d : List TabElem) (clicks : List Nat) : List TabElem :=
  clicks.foldl (fun s i => clickTab i s) (initTabs d)

/-- The number of triggers that carry the active marker. -/
def activeButtons (d : List TabElem) : Nat := d.countP (fun e => e.isButton && e.active)

/-- The number of panels that carry the active marker. -/
def activePanels (d : List TabElem) : Nat := d.countP (fun e => e.isPanel && e.active)

/-- One trigger with the target "a" and two panels with the identifier "a". -/
def duplicatePanels : List TabElem :=
  [⟨some (lit "a"), none, false⟩, ⟨none, some (lit "a"), false⟩, ⟨none, some (lit "a"), false⟩]

/-- Two triggers with the target "a", the first of them also a panel with the
identifier "a". -/
def triggerIsPanel : List TabElem :=
  [⟨some (lit "a"), some (lit "a"), false⟩, ⟨some (lit "a"), none, false⟩]

/-- Two triggers and their two panels, the second pair marked active in the
markup. -/
def twoTabs : List TabElem :=
  [⟨some (lit "html"), none, false⟩, ⟨some (lit "css"), none, true⟩,
    ⟨none, some (lit "html"), false⟩, ⟨none, some (lit "css"), true⟩]

/-! ## The theme toggle -/

/-- Whether `document.body` has the class `dark`, and the entry of
`localStorage` under the key `tnd-theme` (`none`: no entry). -/
structure ThemeState where
  dark : Bool
  stored : Option JSString
deriving DecidableEq

/-- `applyTheme(theme)`. -/
def applyTheme (theme : JSString) (st : ThemeState) : ThemeState :=
  if theme = lit "dark" then { st with dark := true } else { st with dark := false }

/-- `localStorage.getItem('tnd-theme') || 'light'`: a missing entry and the
empty string are falsy. -/
def savedTheme (stored : Option JSString) : JSString :=
  match stored with
  | none => lit "light"
  | some v => if v.isEmpty then lit "light" else v

/-- The theme part of the load handler. -/
def loadTheme (st : ThemeState) : ThemeState := applyTheme (savedTheme st.stored) st

/-- The `click` handler of a `.theme-toggle` control. -/
def toggleTheme (st : ThemeState) : ThemeState :=
  let useDark := !st.dark
  { dark := useDark, stored := some (if useDark then lit "dark" else lit "light") }

/-- The theme state after load and then `n` activations of a toggle. -/
def themeAfter (st : ThemeState) : Nat → ThemeState
  | 0 => loadTheme st
  | n + 1 => toggleTheme (themeAfter st n)

/-! ## The counter widget -/

/-- The variable `count` (a number that holds an integer, exact below 2^53),
the text of `#counter-display`, whether the display has the class `milestone`,
and the number of removal callbacks that are scheduled and have not run yet. -/
structure Counter where
  count : Nat
  display : JSString
  milestone : Bool
  pending : Nat
deriving DecidableEq

/-- What happens to the counter: a click on `#counter-btn`, or a scheduled
removal callback running. -/
inductive CounterEvent where
  | click
  | timeout
deriving DecidableEq

/-- The `click` handler of `#counter-btn`. -/
def counterClick (s : Counter) : Counter :=
  let count := s.count + 1
  let s := { s with count := count, display := lit (toString count) }
  if count % 5 == 0 then { s with milestone := true, pending := s.pending + 1 } else s

/-- The callback `() => counterDisplay.classList.remove('milestone')`, 800 ms
after the click that scheduled it. -/
def counterTimeout (s : Counter) : Counter :=
  if s.pending = 0 then s else { s with milestone := false, pending := s.pending - 1 }

/-- One event. -/
def counterStep (s : Counter) : CounterEvent → Counter
  | .click => counterClick s
  | .timeout => counterTimeout s

/-- The counter at load: `let count = 0`, the display as the markup has it. -/
def counterInit (display : JSString) (milestone : Bool) : Counter :=
  { count := 0, display := display, milestone := milestone, pending := 0 }

/-- The clicks among some events. -/
def clicksIn (evs : List CounterEvent) : Nat := evs.count .click

/-- The counter after some events, in order. -/
def runCounter (s : Counter) (evs : List CounterEvent) : Counter := evs.foldl counterStep s

/-! ## Lemmas on the matcher -/

theorem repeatChars_iff (p : Nat → Bool) (c : Continuation) :
    ∀ (s : JSString) (min : Nat) (max : Option Nat) (i : Nat),
      (∀ M, max = some M → min ≤ M) →
      (repeatChars p c min max i s = true ↔
        ∃ a b, s = a ++ b ∧ min ≤ a.length ∧ (∀ M, max = some M → a.length ≤ M) ∧
          (∀ ch ∈ a, p ch = true) ∧ c ⟨i + a.length, b⟩ = true) := by
  intro s
  induction s with
  | nil =>
    intro min max i _
    cases min with
    | zero =>
      simp only [repeatChars]
      constructor
      · intro h
        exact ⟨[], [], rfl, by simp, by simp, by simp, by simpa using h⟩
      · rintro ⟨a, b, hab, -, -, -, hc⟩
        have ha : a = [] := by
          cases a with
          | nil => rfl
          | cons x xs => simp at hab
        subst ha
        have hb : b = [] := by simpa using hab.symm
        subst hb
        simpa using hc
    | succ n =>
      simp only [repeatChars]
      constructor
      · intro h; cases h
      · rintro ⟨a, b, hab, hmin, -⟩
        have ha : a = [] := by
          cases a with
          | nil => rfl
          | cons x xs => simp at hab
        subst ha
        simp at hmin
  | cons ch r ih =>
    intro min max i hmm
    cases min with
    | zero =>
      simp only [repeatChars]
      by_cases hz : max = some 0
      · simp only [hz, if_true]
        constructor
        · intro h
          exact ⟨[], ch :: r, rfl, by simp, by simp, by simp, by simpa using h⟩
        · rintro ⟨a, b, hab, -, hmax, -, hc⟩
          have hl := hmax 0 rfl
          have ha : a = [] := List.length_eq_zero.mp (Nat.le_zero.mp hl)
          subst ha
          simp only [List.nil_append] at hab
          subst hab
          simpa using hc
      · simp only [hz, if_false, Bool.or_eq_true, Bool.and_eq_true]
        have hmm2 : ∀ M, max.map (· - 1) = some M → 0 ≤ M := fun _ _ => Nat.zero_le _
        rw [ih 0 (max.map (· - 1)) (i + 1) hmm2]
        constructor
        · rintro (⟨hp, a, b, hab, -, hmax, hall, hc⟩ | hc)
          · refine ⟨ch :: a, b, by simp [hab], by simp, ?_, ?_, ?_⟩
            · intro M hM
              subst hM
              have := hmax (M - 1) (by simp)
              have hM0 : M ≠ 0 := fun h0 => hz (by simp [h0])
              simp only [List.length_cons]
              omega
            · intro x hx
              rcases List.mem_cons.mp hx with rfl | hx
              · exact hp
              · exact hall x hx
            · simpa [Nat.add_assoc, Nat.add_comm 1] using hc
          · exact ⟨[], ch :: r, rfl, by simp, by simp, by simp, by simpa using hc⟩
        · rintro ⟨a, b, hab, -, hmax, hall, hc⟩
          cases a with
          | nil =>
            right
            simp only [List.nil_append] at hab
            subst hab
            simpa using hc
          | cons x xs =>
            left
            simp only [List.cons_append, List.cons.injEq] at hab
            obtain ⟨rfl, rfl⟩ := hab
            refine ⟨hall _ (List.mem_cons_self _ _), xs, b, rfl, Nat.zero_le _, ?_, ?_, ?_⟩
            · intro M hM
              cases max with
              | none => simp at hM
              | some K =>
                simp only [Option.map_some', Option.some.injEq] at hM
                have := hmax K rfl
                simp only [List.length_cons] at this
                omega
            · intro y hy
              exact hall y (List.mem_cons_of_mem _ hy)
            · simpa [Nat.add_assoc, Nat.add_comm 1] using hc
    | succ n =>
      simp only [repeatChars, Bool.and_eq_true]
      have hmm2 : ∀ M, max.map (· - 1) = some M → n ≤ M := by
        intro M hM
        cases max with
        | none => simp at hM
        | some K =>
          simp only [Option.map_some', Option.some.injEq] at hM
          have := hmm K rfl
          omega
      rw [ih n (max.map (· - 1)) (i + 1) hmm2]
      constructor
      · rintro ⟨hp, a, b, hab, hmin, hmax, hall, hc⟩
        refine ⟨ch :: a, b, by simp [hab], by simp [hmin], ?_, ?_, ?_⟩
        · intro M hM
          subst hM
          have := hmax (M - 1) (by simp)
          have := hmm M rfl
          simp only [List.length_cons]
          omega
        · intro x hx
          rcases List.mem_cons.mp hx with rfl | hx
          · exact hp
          · exact hall x hx
        · simpa [Nat.add_assoc, Nat.add_comm 1] using hc
      · rintro ⟨a, b, hab, hmin, hmax, hall, hc⟩
        cases a with
        | nil => simp at hmin
        | cons x xs =>
          simp only [List.cons_append, List.cons.injEq] at hab
          obtain ⟨rfl, rfl⟩ := hab
          refine ⟨hall _ (List.mem_cons_self _ _), xs, b, rfl, ?_, ?_, ?_, ?_⟩
          · simpa using hmin
          · intro M hM
            cases max with
            | none => simp at hM
            | some K =>
              simp only [Option.map_some', Option.some.injEq] at hM
              have := hmax K rfl
              simp only [List.length_cons] at this
              omega
          · intro y hy
            exact hall y (List.mem_cons_of_mem _ hy)
          · simpa [Nat.add_assoc, Nat.add_comm 1] using hc

/-- A pattern that begins with `^` can only match at index 0. -/
theorem testFrom_assertStart_pos (m : Matcher) :
    ∀ (s : JSString) (i : Nat), 0 < i → testFrom (seq assertStart m) i s = false := by
  intro s
  induction s with
  | nil =>
    intro i hi
    have : (i == 0) = false := by simpa using Nat.pos_iff_ne_zero.mp hi
    simp [testFrom, seq, assertStart, this]
  | cons ch r ih =>
    intro i hi
    have : (i == 0) = false := by simpa using Nat.pos_iff_ne_zero.mp hi
    simp [testFrom, seq, assertStart, this, ih (i + 1) (Nat.succ_pos i)]

theorem regExpTest_assertStart (m : Matcher) (s : JSString) :
    regExpTest (seq assertStart m) s = m ⟨0, s⟩ (fun _ => true) := by
  cases s with
  | nil => simp [regExpTest, testFrom, seq, assertStart]
  | cons ch r =>
    simp [regExpTest, testFrom, seq, assertStart, testFrom_assertStart_pos m r 1 Nat.one_pos]

theorem repeatChars_none_iff (p : Nat → Bool) (c : Continuation) (min i : Nat) (s : JSString) :
    repeatChars p c min none i s = true ↔
      ∃ a b, s = a ++ b ∧ min ≤ a.length ∧ (∀ ch ∈ a, p ch = true) ∧
        c ⟨i + a.length, b⟩ = true := by
  rw [repeatChars_iff p c s min none i (by simp)]
  simp

theorem quantified_none_iff (p : Nat → Bool) (min : Nat) (x : MatchState) (c : Continuation) :
    quantified p min none x c = true ↔
      ∃ a b, x.rest = a ++ b ∧ min ≤ a.length ∧ (∀ ch ∈ a, p ch = true) ∧
        c ⟨x.index + a.length, b⟩ = true :=
  repeatChars_none_iff p c min x.index x.rest

theorem charSet_iff (p : Nat → Bool) (x : MatchState) (c : Continuation) :
    charSet p x c = true ↔
      ∃ ch r, x.rest = ch :: r ∧ p ch = true ∧ c ⟨x.index + 1, r⟩ = true := by
  obtain ⟨i, rest⟩ := x
  cases rest with
  | nil => simp [charSet]
  | cons ch r =>
    simp only [charSet, Bool.and_eq_true, List.cons.injEq]
    constructor
    · rintro ⟨h1, h2⟩
      exact ⟨ch, r, ⟨rfl, rfl⟩, h1, h2⟩
    · rintro ⟨_, _, ⟨rfl, rfl⟩, h1, h2⟩
      exact ⟨h1, h2⟩

theorem assertEnd_iff (x : MatchState) (c : Continuation) :
    assertEnd x c = true ↔ x.rest = [] ∧ c x = true := by
  simp [assertEnd]

/-! ## Lemmas on `trim` -/

theorem isWhiteSpace_of_isAsciiLetter {c : Nat} (h : isAsciiLetter c = true) :
    isWhiteSpace c = false := by
  simp only [isAsciiLetter, Bool.or_eq_true, Bool.and_eq_true, decide_eq_true_eq] at h
  simp only [isWhiteSpace, isLineTerminator, Bool.or_eq_false_iff, Bool.and_eq_false_iff,
    beq_eq_false_iff_ne, decide_eq_false_iff_not]
  omega

theorem trim_eq_rdropWhile (s : JSString) :
    trim s = List.rdropWhile isWhiteSpace (List.dropWhile isWhiteSpace s) := rfl

/-- A string without white space at either end is its own trim. -/
theorem trim_eq_self (s : JSString) (h : ∀ ch ∈ s, isWhiteSpace ch = false) : trim s = s := by
  have h1 : List.dropWhile isWhiteSpace s = s := by
    cases s with
    | nil => rfl
    | cons x xs => simp [List.dropWhile, h x (List.mem_cons_self _ _)]
  have h2 : List.dropWhile isWhiteSpace s.reverse = s.reverse := by
    cases hr : s.reverse with
    | nil => rfl
    | cons x xs =>
      have hx : x ∈ s := by
        have : x ∈ s.reverse := by rw [hr]; exact List.mem_cons_self _ _
        exact List.mem_reverse.mp this
      simp [List.dropWhile, h x hx]
  simp [trim, h1, h2]

/-- The first character of a trimmed string is not white space. -/
theorem trim_head (s : JSString) (c : Nat) (r : JSString) (h : trim s = c :: r) :
    isWhiteSpace c = false := by
  rw [trim_eq_rdropWhile] at h
  have hpre : List.rdropWhile isWhiteSpace (List.dropWhile isWhiteSpace s) <+:
      List.dropWhile isWhiteSpace s := List.rdropWhile_prefix _ _
  rw [h] at hpre
  obtain ⟨t, ht⟩ := hpre
  have hne : List.dropWhile isWhiteSpace s ≠ [] := by
    rw [← ht]; simp
  have hh := List.head_dropWhile_not isWhiteSpace s hne
  have : (List.dropWhile isWhiteSpace s).head hne = c := by
    simp [← ht]
  rw [this] at hh
  simpa using hh

/-! ## Characterisation of the validators -/

theorem validateName_iff (name : JSString) :
    validateName name = true ↔
      (∀ ch ∈ trim name, isAsciiLetter ch = true ∨ isWhiteSpace ch = true) ∧
        2 ≤ (trim name).length ∧ (trim name).length ≤ 40 := by
  unfold validateName namePattern
  rw [regExpTest_assertStart]
  show repeatChars nameClass _ 2 (some 40) 0 (trim name) = true ↔ _
  rw [repeatChars_iff nameClass _ (trim name) 2 (some 40) 0 (by simp)]
  constructor
  · rintro ⟨a, b, hab, hmin, hmax, hall, hc⟩
    have hb : b = [] := by
      have := (assertEnd_iff _ _).mp hc
      exact this.1
    subst hb
    rw [List.append_nil] at hab
    rw [hab]
    refine ⟨?_, hmin, hmax 40 rfl⟩
    intro ch hch
    simpa [nameClass] using hall ch hch
  · rintro ⟨hall, hmin, hmax⟩
    refine ⟨trim name, [], by simp, hmin, ?_, ?_, ?_⟩
    · intro M hM
      simp only [Option.some.injEq] at hM
      omega
    · intro ch hch
      simpa [nameClass] using hall ch hch
    · simp [assertEnd]

theorem emailClass_iff (ch : Nat) :
    emailClass ch = true ↔ isWhiteSpace ch = false ∧ ch ≠ 0x40 := by
  simp [emailClass]

theorem validateEmail_iff (email : JSString) :
    validateEmail email = true ↔ emailForm email := by
  unfold validateEmail emailPattern
  rw [regExpTest_assertStart]
  simp only [seq, quantified_none_iff, charSet_iff, assertEnd_iff, emailClass_iff,
    beq_iff_eq, and_true]
  constructor
  · rintro ⟨l, b, hs, hl, hlall, ch, r, hb, rfl, d, b2, hr, hd, hdall, ch2, r2, hb2, rfl,
      t, b3, hr2, ht, htall, hb3⟩
    subst hb3
    simp only [List.append_nil] at hr2
    subst hr2; subst hb2; subst hr; subst hb
    exact ⟨l, d, r2, hs, hl, hlall, hd, hdall, ht, htall⟩
  · rintro ⟨l, d, t, hs, hl, hlall, hd, hdall, ht, htall⟩
    exact ⟨l, _, hs, hl, hlall, _, _, rfl, rfl, d, _, rfl, hd, hdall, _, _, rfl, rfl,
      t, [], by simp, ht, htall, rfl⟩

theorem validatePassword_iff (pwd : JSString) :
    validatePassword pwd = true ↔
      6 ≤ pwd.length ∧ (∃ ch ∈ pwd, isDigit ch = true) ∧
        ∀ ch ∈ pwd, isLineTerminator ch = false := by
  unfold validatePassword passwordPattern
  rw [regExpTest_assertStart]
  simp only [seq, lookahead, Bool.and_eq_true, quantified_none_iff, charSet_iff, assertEnd_iff,
    and_true]
  constructor
  · rintro ⟨⟨a, b, hs, -, -, ch, r, hb, hdig⟩, a2, b2, hs2, hlen, hall, hb2⟩
    subst hb2
    simp only [List.append_nil] at hs2
    subst hs2
    refine ⟨hlen, ⟨ch, ?_, hdig⟩, ?_⟩
    · rw [hs, hb]; simp
    · intro x hx
      simpa [dotClass] using hall x hx
  · rintro ⟨hlen, ⟨ch, hmem, hdig⟩, hall⟩
    obtain ⟨a, r, hs⟩ := List.append_of_mem hmem
    refine ⟨⟨a, ch :: r, hs, Nat.zero_le _, ?_, ch, r, rfl, hdig⟩,
      pwd, [], by simp, hlen, ?_, rfl⟩
    · intro x hx
      have : x ∈ pwd := by rw [hs]; exact List.mem_append_left _ hx
      simpa [dotClass] using hall x this
    · intro x hx
      simpa [dotClass] using hall x hx

/-! ## Lemmas on the user name of the success message -/

theorem nameClass_not_markup {ch : Nat}
    (h : isAsciiLetter ch = true ∨ isWhiteSpace ch = true) :
    ch ≠ 0x3C ∧ ch ≠ 0x3E ∧ ch ≠ 0x26 := by
  simp only [isAsciiLetter, isWhiteSpace, isLineTerminator, Bool.or_eq_true, Bool.and_eq_true,
    decide_eq_true_eq, beq_iff_eq] at h
  omega

theorem takeWhile_isPrefix_takeWhile (p q : Nat → Bool) (hpq : ∀ x, p x = true → q x = true) :
    ∀ l : JSString, l.takeWhile p <+: l.takeWhile q := by
  intro l
  induction l with
  | nil => simp
  | cons x xs ih =>
    by_cases hp : p x = true
    · have hq := hpq x hp
      simp only [List.takeWhile_cons, hp, hq, if_true]
      obtain ⟨t, ht⟩ := ih
      exact ⟨t, by simp [ht]⟩
    · simp only [Bool.not_eq_true] at hp
      simp [List.takeWhile_cons, hp]

theorem firstToken_isPrefix_splitHead (s : JSString) : firstToken s <+: splitHead s := by
  apply takeWhile_isPrefix_takeWhile
  intro x hx
  simp only [Bool.not_eq_true', bne_iff_ne, ne_eq] at hx ⊢
  intro h
  subst h
  simp [isWhiteSpace] at hx

theorem not_space_of_not_isWhiteSpace {c : Nat} (h : isWhiteSpace c = false) : c ≠ 0x20 := by
  intro h0
  subst h0
  simp [isWhiteSpace] at h

/-- What a valid name gives: the trimmed name starts with a letter, and so do
the part before its first space and its first token. -/
theorem valid_name_head (v : JSString) (h : validateName v = true) :
    ∃ c r, trim v = c :: r ∧ isAsciiLetter c = true ∧
      splitHead (trim v) = c :: splitHead r ∧ firstToken (trim v) = c :: firstToken r := by
  obtain ⟨hall, hmin, -⟩ := (validateName_iff v).mp h
  cases ht : trim v with
  | nil => rw [ht] at hmin; simp at hmin
  | cons c r =>
    have hws := trim_head v c r ht
    have hc : isAsciiLetter c = true := by
      rcases hall c (by rw [ht]; exact List.mem_cons_self _ _) with h1 | h1
      · exact h1
      · rw [hws] at h1; cases h1
    refine ⟨c, r, rfl, hc, ?_, ?_⟩
    · have := not_space_of_not_isWhiteSpace hws
      simp [splitHead, List.takeWhile_cons, this]
    · simp [firstToken, List.takeWhile_cons, hws]

theorem username_of_valid (inp : Input) (h : validateName inp.value = true) :
    username (some inp) = splitHead (trim inp.value) := by
  obtain ⟨c, r, -, -, hs, -⟩ := valid_name_head inp.value h
  simp [username, hs]

theorem splitHead_chars (v : JSString) (h : validateName v = true) :
    ∀ ch ∈ splitHead (trim v), isAsciiLetter ch = true ∨ isWhiteSpace ch = true := by
  intro ch hch
  obtain ⟨hall, -, -⟩ := (validateName_iff v).mp h
  exact hall ch (List.takeWhile_subset _ hch)

/-! ## The claims on the validators -/

/-- C1: `validateName(name)` is true exactly when the trimmed name consists
only of ASCII letters and white space and has between 2 and 40 characters;
"Al1ce" is invalid, "Alice Wonderland" is valid, and an all-letter string of
41 characters is invalid. -/
theorem validateName_spec (name : JSString) :
    (validateName name = true ↔
        (∀ ch ∈ trim name, isAsciiLetter ch = true ∨ isWhiteSpace ch = true) ∧
          2 ≤ (trim name).length ∧ (trim name).length ≤ 40) ∧
      validateName (lit "Al1ce") = false ∧
      validateName (lit "Alice Wonderland") = true ∧
      (name.length = 41 → (∀ ch ∈ name, isAsciiLetter ch = true) →
        validateName name = false) := by
  refine ⟨validateName_iff name, by decide, by decide, ?_⟩
  intro hlen hall
  have ht : trim name = name :=
    trim_eq_self name (fun ch hch => isWhiteSpace_of_isAsciiLetter (hall ch hch))
  cases hv : validateName name with
  | false => rfl
  | true =>
    have := ((validateName_iff name).mp hv).2.2
    rw [ht, hlen] at this
    omega

/-- C1, at a name of 41 letters "a". -/
theorem validateName_spec_witness :
    validateName (List.replicate 41 0x61) = false :=
  (validateName_spec (List.replicate 41 0x61)).2.2.2 (by decide) (by decide)

/-- C2, as the specification words it, fails: "a@b.c@" has the stated form (the
suffix "c@" is two characters that are not white space), and `validateEmail`
rejects it. -/
theorem validateEmail_claimed_counterexample :
    ¬ (validateEmail (lit "a@b.c@") = true ↔ emailFormClaimed (lit "a@b.c@")) := by
  intro h
  have hform : emailFormClaimed (lit "a@b.c@") :=
    ⟨[0x61], [0x62], [0x63, 0x40], by decide, by decide, by decide, by decide, by decide,
      by decide, by decide⟩
  have hv := h.mpr hform
  revert hv
  decide

/-- C2, amended: `validateEmail(email)` is true exactly when the whole string
is a non-empty run of characters that are neither white space nor `@`, then
`@`, then such a run again, then `.`, then at least 2 characters that are
neither white space nor `@`; "a@b.co" is valid, "a@b" and "a b@c.com" are
invalid. -/
theorem validateEmail_spec (email : JSString) :
    (validateEmail email = true ↔ emailForm email) ∧
      validateEmail (lit "a@b.co") = true ∧
      validateEmail (lit "a@b") = false ∧
      validateEmail (lit "a b@c.com") = false :=
  ⟨validateEmail_iff email, by decide, by decide, by decide⟩

/-- C3, at a password that ends in U+2028 LINE SEPARATOR: it has 7 characters,
one of them a digit, and `validatePassword` rejects it; the three passwords of
the specification are classified as it says. -/
theorem validatePassword_line_separator :
    validatePassword (lit "abc123" ++ [0x2028]) = false ∧
      6 ≤ (lit "abc123" ++ [0x2028]).length ∧
      (∃ ch ∈ lit "abc123" ++ [0x2028], isDigit ch = true) ∧
      validatePassword (lit "abc123") = true ∧
      validatePassword (lit "abcdef") = false ∧
      validatePassword (lit "a1") = false :=
  ⟨by decide, by decide, ⟨0x31, by decide, by decide⟩, by decide, by decide, by decide⟩

/-- C10: when the name input holds a valid name, the user name written into
the success markup, the part of the trimmed name before its first space, is
not empty, starts with an ASCII letter and consists of ASCII letters and white
space; so the fallback "Friend" is not taken and the user name brings none of
the characters `<`, `>`, `&` into the message box. -/
theorem username_safe (inp : Input) (h : validateName inp.value = true) :
    splitHead (trim inp.value) ≠ [] ∧
      (∃ c r, splitHead (trim inp.value) = c :: r ∧ isAsciiLetter c = true) ∧
      (∀ ch ∈ splitHead (trim inp.value), isAsciiLetter ch = true ∨ isWhiteSpace ch = true) ∧
      username (some inp) = splitHead (trim inp.value) ∧
      (∀ ch ∈ username (some inp), ch ≠ 0x3C ∧ ch ≠ 0x3E ∧ ch ≠ 0x26) := by
  obtain ⟨c, r, -, hc, hs, -⟩ := valid_name_head inp.value h
  refine ⟨by rw [hs]; simp, ⟨c, _, hs, hc⟩, splitHead_chars inp.value h,
    username_of_valid inp h, ?_⟩
  intro ch hch
  rw [username_of_valid inp h] at hch
  exact nameClass_not_markup (splitHead_chars inp.value h ch hch)

/-- C10, at the name "Alice Wonderland". -/
theorem username_safe_witness :
    username (some ⟨lit "Alice Wonderland", [], false, 0⟩) = lit "Alice" := by
  rw [(username_safe ⟨lit "Alice Wonderland", [], false, 0⟩ (by decide)).2.2.2.1]
  decide

/-! ## The claims on the submit handler -/

theorem isInfix_successMarkup (t user : JSString) (h : t <+: user) :
    t <:+: successMarkup user := by
  obtain ⟨r, hr⟩ := h
  refine ⟨lit "<div class=\"success\">Thank you, ",
    r ++ lit "! You've joined the Tech Newbie Diary</div>", ?_⟩
  simp [successMarkup, ← hr]

/-- C4: when the three inputs are present and hold valid values, the submit
handler resets every control of the form to its default value and writes into
the message box (when the form has one) the success markup, which contains
the first whitespace-delimited token of the trimmed name. -/
theorem submit_valid (f : JoinForm) (n e p : Input)
    (hn : f.nameInput = some n) (he : f.emailInput = some e) (hp : f.pwdInput = some p)
    (vn : validateName n.value = true) (ve : validateEmail e.value = true)
    (vp : validatePassword p.value = true) :
    (submit f).nameInput = some { n with value := n.defaultValue, ariaInvalid := false } ∧
      (submit f).emailInput = some { e with value := e.defaultValue, ariaInvalid := false } ∧
      (submit f).pwdInput = some { p with value := p.defaultValue, ariaInvalid := false } ∧
      (submit f).others = f.others.map (fun i => { i with value := i.defaultValue }) ∧
      (submit f).msgBox = f.msgBox.map (fun _ => successMarkup (username (some n))) ∧
      firstToken (trim n.value) ≠ [] ∧
      firstToken (trim n.value) <:+: successMarkup (username (some n)) := by
  obtain ⟨ni, ei, pi, o, m, dom⟩ := f
  simp only at hn he hp
  subst hn he hp
  have hsub : submit ⟨some n, some e, some p, o, m, dom⟩ =
      resetForm ⟨some { n with ariaInvalid := false }, some { e with ariaInvalid := false },
        some { p with ariaInvalid := false }, o,
        m.map (fun _ => successMarkup (username (some n))),
        ((dom.atChildren n.parent Dom.removeFirstError).atChildren e.parent
          Dom.removeFirstError).atChildren p.parent Dom.removeFirstError⟩ := by
    cases m <;>
      simp [submit, clearErrorAt, JoinForm.input, JoinForm.setInput, clearError, checkField,
        validate, vn, ve, vp, username]
  rw [hsub]
  refine ⟨rfl, rfl, rfl, rfl, rfl, ?_, ?_⟩
  · obtain ⟨c, r, -, -, -, hft⟩ := valid_name_head n.value vn
    rw [hft]; simp
  · apply isInfix_successMarkup
    rw [username_of_valid n vn]
    exact firstToken_isPrefix_splitHead _

/-- C4, at a form that holds "Alice Wonderland", "a@b.co" and "abc123". -/
theorem submit_valid_witness :
    (submit ⟨some ⟨lit "Alice Wonderland", [], false, 0⟩, some ⟨lit "a@b.co", [], false, 1⟩,
        some ⟨lit "abc123", [], false, 2⟩, [], some [],
        .elem 0 (.elem 1 .nil (.elem 2 .nil .nil)) .nil⟩).msgBox =
      some (successMarkup (lit "Alice")) :=
  (submit_valid ⟨some ⟨lit "Alice Wonderland", [], false, 0⟩, some ⟨lit "a@b.co", [], false, 1⟩,
      some ⟨lit "abc123", [], false, 2⟩, [], some [],
      .elem 0 (.elem 1 .nil (.elem 2 .nil .nil)) .nil⟩
    ⟨lit "Alice Wonderland", [], false, 0⟩ ⟨lit "a@b.co", [], false, 1⟩
    ⟨lit "abc123", [], false, 2⟩ rfl rfl rfl (by decide) (by decide) (by decide)).2.2.2.2.1

/-- An invalid submission changes no value, empties the message box and sets
`aria-invalid` on exactly the present inputs whose value is invalid. -/
theorem submit_invalid_fields (f : JoinForm) (hinv : someInvalid f) :
    (∀ fld inp, f.input fld = some inp →
        (submit f).input fld = some { inp with ariaInvalid := !validate fld inp.value }) ∧
      (∀ fld, f.input fld = none → (submit f).input fld = none) ∧
      (submit f).others = f.others ∧
      (submit f).msgBox = f.msgBox.map (fun _ => []) := by
  obtain ⟨ni, ei, pi, o, m, dom⟩ := f
  obtain ⟨fld0, inp0, h0, hv0⟩ := hinv
  rcases ni with _ | n <;> rcases ei with _ | e <;> rcases pi with _ | p <;>
    (try cases hvn : validateName n.value) <;>
    (try cases hve : validateEmail e.value) <;>
    (try cases hvp : validatePassword p.value)
  all_goals
    first
    | (exfalso
       cases fld0 <;> simp_all [JoinForm.input, validate]
       done)
    | refine ⟨?_, ?_, ?_, ?_⟩
  all_goals clear h0 hv0
  all_goals
    first
    | (intro fld inp h
       cases fld <;> simp [JoinForm.input] at h <;> (try subst h) <;>
         simp [submit, clearErrorAt, JoinForm.input, JoinForm.setInput, clearError, showError,
           checkField, validate, *])
    | (intro fld h
       cases fld <;> simp [JoinForm.input] at h <;>
         simp [submit, clearErrorAt, JoinForm.input, JoinForm.setInput, clearError, showError,
           checkField, validate, *])
    | simp [submit, clearErrorAt, JoinForm.input, JoinForm.setInput, clearError, showError,
        checkField, validate, *]

/-- C5, at the form `nestedForm`, where the parent of the name input (the
form) contains the parents of the other two inputs. A first submission shows
the three messages, the one of the name as last child of the form. The user
then types the valid name "Al": the `input` listener removes the first
`.error` element under the form, which is the one of the e-mail. The second
submission, with the e-mail and the password still invalid, leaves the
message of the name in the form although the name is valid and has lost
`aria-invalid`. In `flatForm`, where the inputs share their parent, one
submission leaves a single `.error` element, with the message of the e-mail:
the message of the invalid name is overwritten. -/
theorem submit_stale_error :
    (submit nestedForm).dom =
        .elem 0 (.elem 1 (.error (message .email) .nil)
          (.elem 2 (.error (message .password) .nil) (.error (message .name) .nil))) .nil ∧
      (typeInto .name (lit "Al") (submit nestedForm)).dom =
        .elem 0 (.elem 1 .nil
          (.elem 2 (.error (message .password) .nil) (.error (message .name) .nil))) .nil ∧
      (typeInto .name (lit "Al") (submit nestedForm)).emailInput =
        some ⟨lit "a@b", [], true, 1⟩ ∧
      validate .name (lit "Al") = true ∧
      validate .email (lit "a@b") = false ∧
      (submit (typeInto .name (lit "Al") (submit nestedForm))).nameInput =
        some ⟨lit "Al", [], false, 0⟩ ∧
      (submit (typeInto .name (lit "Al") (submit nestedForm))).dom =
        .elem 0 (.elem 1 (.error (message .email) .nil)
          (.elem 2 (.error (message .password) .nil) (.error (message .name) .nil))) .nil ∧
      (submit flatForm).nameInput = some ⟨lit "A1", [], true, 0⟩ ∧
      (submit flatForm).dom = .elem 0 (.error (message .email) .nil) .nil := by
  refine ⟨by decide, by decide, by decide, by decide, by decide, by decide, by decide,
    by decide, by decide⟩

/-! ## The tab switcher -/

theorem clickTab_getElem? (d : List TabElem) (i : Nat) (btn : TabElem) (target : JSString)
    (h : d[i]? = some btn) (ht : btn.tabTarget = some target) (k : Nat) :
    (clickTab i d)[k]? = (d[k]?).map (afterClick target i k) := by
  have hlt : i < d.length := by
    by_contra hge
    rw [List.getElem?_eq_none (Nat.le_of_not_lt hge)] at h
    cases h
  simp only [clickTab, h, ht, markPanels, clearButtons, List.getElem?_map, List.getElem?_set,
    List.length_map]
  by_cases hik : i = k
  · subst hik
    simp only [hlt, if_true, h, Option.map_some', Option.some.injEq]
    obtain ⟨tt, tb, act⟩ := btn
    simp only at ht
    subst ht
    cases tb <;> simp [afterClick, TabElem.isButton]
  · simp only [hik, if_false]
    cases hk : d[k]? with
    | none => rfl
    | some e =>
      simp only [Option.map_some', Option.some.injEq]
      obtain ⟨tt, tb, act⟩ := e
      have hki : ¬ k = i := fun h' => hik h'.symm
      cases tt <;> cases tb <;> simp [afterClick, TabElem.isButton, hki]

/-- A click changes no attribute. -/
theorem clickTab_shape (d : List TabElem) (i : Nat) :
    (clickTab i d).map (fun e => (e.tabTarget, e.tab)) =
      d.map (fun e => (e.tabTarget, e.tab)) := by
  cases h : d[i]? with
  | none => simp [clickTab, h]
  | some btn =>
    cases ht : btn.tabTarget with
    | none => simp [clickTab, h, ht]
    | some target =>
      apply List.ext_getElem?
      intro k
      rw [List.getElem?_map, List.getElem?_map, clickTab_getElem? d i btn target h ht k]
      cases d[k]? <;> rfl

theorem runTabs_concat (d : List TabElem) (cs : List Nat) (c : Nat) :
    runTabs d (cs ++ [c]) = clickTab c (runTabs d cs) := by
  simp [runTabs, List.foldl_append]

theorem runTabs_shape (d : List TabElem) (clicks : List Nat) :
    (runTabs d clicks).map (fun e => (e.tabTarget, e.tab)) =
      d.map (fun e => (e.tabTarget, e.tab)) := by
  induction clicks using List.reverseRecOn with
  | nil =>
    show (initTabs d).map _ = _
    unfold initTabs
    split
    · exact clickTab_shape d _
    · rfl
  | append_singleton cs c ih =>
    rw [runTabs_concat]
    exact (clickTab_shape (runTabs d cs) c).trans ih

/-- After load and any clicks, the state is the result of one click: of the
last one, or of the initial click on the first trigger. -/
theorem runTabs_last (d : List TabElem) (clicks : List Nat)
    (hne : ∃ e ∈ d, e.isButton = true) :
    ∃ s : List TabElem,
      s.map (fun e => (e.tabTarget, e.tab)) = d.map (fun e => (e.tabTarget, e.tab)) ∧
      runTabs d clicks = clickTab (clicks.getLast?.getD (d.findIdx TabElem.isButton)) s := by
  induction clicks using List.reverseRecOn with
  | nil =>
    refine ⟨d, rfl, ?_⟩
    have hany : d.any TabElem.isButton = true := by
      obtain ⟨e, he, hb⟩ := hne
      exact List.any_eq_true.mpr ⟨e, he, hb⟩
    simp [runTabs, initTabs, hany]
  | append_singleton cs c _ =>
    refine ⟨runTabs d cs, runTabs_shape d cs, ?_⟩
    rw [runTabs_concat, List.getLast?_concat]
    rfl

theorem countP_le_one_of_index {α : Type} (p : α → Bool) :
    ∀ (l : List α) (j : Nat), (∀ i b, l[i]? = some b → p b = true → i = j) →
      l.countP p ≤ 1 := by
  intro l
  induction l with
  | nil => intro j _; simp
  | cons a l ih =>
    intro j h
    by_cases hp : p a = true
    · have hj : 0 = j := h 0 a (by simp) hp
      have hz : l.countP p = 0 := by
        rw [List.countP_eq_zero]
        intro b hb hpb
        obtain ⟨k, hk⟩ := List.getElem?_of_mem hb
        have := h (k + 1) b (by simpa using hk) hpb
        omega
      simp [List.countP_cons, hp, hz]
    · have hle := ih (j - 1) (fun i b hi hb => by
        have := h (i + 1) b (by simpa using hi) hb
        omega)
      simp only [Bool.not_eq_true] at hp
      simpa [List.countP_cons, hp] using hle

theorem countP_panel_le_one (target : JSString) :
    ∀ l : List TabElem,
      (∀ e ∈ l, ∀ t, e.tab = some t → (e.active = true ↔ t = target)) →
      (l.filterMap (·.tab)).Nodup →
      l.countP (fun e => e.isPanel && e.active) ≤ 1 := by
  intro l
  induction l with
  | nil => intro _ _; simp
  | cons a l ih =>
    intro hact hnd
    have hl : ∀ e ∈ l, ∀ t, e.tab = some t → (e.active = true ↔ t = target) :=
      fun e he => hact e (List.mem_cons_of_mem _ he)
    cases hta : a.tab with
    | none =>
      have hnd' : (l.filterMap (·.tab)).Nodup := by
        simpa [List.filterMap_cons, hta] using hnd
      have hpa : (a.isPanel && a.active) = false := by simp [TabElem.isPanel, hta]
      simpa [List.countP_cons, hpa] using ih hl hnd'
    | some t =>
      have hnd' : t ∉ l.filterMap (·.tab) ∧ (l.filterMap (·.tab)).Nodup := by
        simpa [List.filterMap_cons, hta] using hnd
      by_cases ha : a.active = true
      · have hat : t = target := (hact a (List.mem_cons_self _ _) t hta).mp ha
        have hz : l.countP (fun e => e.isPanel && e.active) = 0 := by
          rw [List.countP_eq_zero]
          intro b hb hpb
          simp only [Bool.and_eq_true, TabElem.isPanel, Option.isSome_iff_exists] at hpb
          obtain ⟨⟨t', ht'⟩, hba⟩ := hpb
          have : t' = target := (hl b hb t' ht').mp hba
          apply hnd'.1
          rw [List.mem_filterMap]
          exact ⟨b, hb, by rw [ht', this, hat]⟩
        have := ih hl hnd'.2
        simp only [List.countP_cons, hz]
        split <;> omega
      · simp only [Bool.not_eq_true] at ha
        have hpa : (a.isPanel && a.active) = false := by simp [ha]
        simpa [List.countP_cons, hpa] using ih hl hnd'.2

/-- C6, as the specification words it, fails in two ways. With one trigger
"a" and two panels of the identifier "a", both panels carry the active marker
after load. With a trigger that is also a panel (target "a", identifier "a")
and a second trigger of target "a", a click on the second trigger leaves both
triggers with the marker. -/
theorem tabs_counterexample :
    (∃ e ∈ duplicatePanels, e.isButton = true) ∧
      ¬ (activePanels (runTabs duplicatePanels []) ≤ 1) ∧
      (∃ e ∈ triggerIsPanel, e.isButton = true) ∧
      ¬ (activeButtons (runTabs triggerIsPanel [1]) ≤ 1) := by
  decide

theorem shape_getElem? (s d : List TabElem)
    (hs : s.map (fun e => (e.tabTarget, e.tab)) = d.map (fun e => (e.tabTarget, e.tab)))
    (k : Nat) (e : TabElem) (h : s[k]? = some e) :
    ∃ e', d[k]? = some e' ∧ e'.tabTarget = e.tabTarget ∧ e'.tab = e.tab := by
  have := congrArg (fun l => l[k]?) hs
  simp only [List.getElem?_map, h, Option.map_some'] at this
  cases hd : d[k]? with
  | none => rw [hd] at this; cases this
  | some e' =>
    rw [hd] at this
    simp only [Option.map_some', Option.some.injEq, Prod.mk.injEq] at this
    exact ⟨e', rfl, this.1.symm, this.2.symm⟩

/-- C6, amended: with at least one trigger, after load and after any clicks
on triggers, a trigger that is no panel carries the active marker exactly
when it is the trigger activated last (the first trigger when there was no
click), and a panel carries it exactly when its identifier equals the target
of that trigger. So when no element is both a trigger and a panel, at most
one trigger carries the marker, and when the identifiers of the panels are
pairwise distinct, at most one panel carries it. -/
theorem tabs_active_marker (d : List TabElem) (clicks : List Nat)
    (hne : ∃ e ∈ d, e.isButton = true)
    (hclicks : ∀ i ∈ clicks, ∃ e, d[i]? = some e ∧ e.isButton = true) :
    ∃ btn target,
      d[clicks.getLast?.getD (d.findIdx TabElem.isButton)]? = some btn ∧
      btn.tabTarget = some target ∧
      (runTabs d clicks).map (fun e => (e.tabTarget, e.tab)) =
        d.map (fun e => (e.tabTarget, e.tab)) ∧
      (∀ k e, (runTabs d clicks)[k]? = some e → e.isButton = true → e.isPanel = false →
        (e.active = true ↔ k = clicks.getLast?.getD (d.findIdx TabElem.isButton))) ∧
      (∀ (k : Nat) (e : TabElem) (t : JSString), (runTabs d clicks)[k]? = some e →
        e.tab = some t →
        (e.active = true ↔ t = target)) ∧
      ((∀ e ∈ d, e.isButton = true → e.isPanel = false) →
        activeButtons (runTabs d clicks) ≤ 1) ∧
      ((d.filterMap (·.tab)).Nodup → activePanels (runTabs d clicks) ≤ 1) := by
  have hj : ∃ e, d[clicks.getLast?.getD (d.findIdx TabElem.isButton)]? = some e ∧
      e.isButton = true := by
    cases hl : clicks.getLast? with
    | none =>
      have hlt : d.findIdx TabElem.isButton < d.length := List.findIdx_lt_length_of_exists hne
      exact ⟨d[d.findIdx TabElem.isButton], List.getElem?_eq_getElem hlt,
        List.findIdx_getElem⟩
    | some c => exact hclicks c (List.mem_of_getLast?_eq_some hl)
  have hshape := runTabs_shape d clicks
  obtain ⟨s, hs, hrun⟩ := runTabs_last d clicks hne
  generalize clicks.getLast?.getD (d.findIdx TabElem.isButton) = j at hj hrun ⊢
  obtain ⟨btn, hbtn, hisb⟩ := hj
  obtain ⟨target, htarget⟩ := Option.isSome_iff_exists.mp hisb
  have hsj : ∃ sb, s[j]? = some sb ∧ sb.tabTarget = some target := by
    have := congrArg (fun l => l[j]?) hs
    simp only [List.getElem?_map, hbtn, Option.map_some'] at this
    cases hsb : s[j]? with
    | none => rw [hsb] at this; cases this
    | some sb =>
      rw [hsb] at this
      simp only [Option.map_some', Option.some.injEq, Prod.mk.injEq] at this
      exact ⟨sb, rfl, this.1.trans htarget⟩
  obtain ⟨sb, hsb, hsbt⟩ := hsj
  have hget : ∀ k, (runTabs d clicks)[k]? = (s[k]?).map (afterClick target j k) := by
    intro k
    rw [hrun]
    exact clickTab_getElem? s j sb target hsb hsbt k
  have hA : ∀ k e, (runTabs d clicks)[k]? = some e → e.isButton = true → e.isPanel = false →
      (e.active = true ↔ k = j) := by
    intro k e he hb hp
    rw [hget k] at he
    cases hsk : s[k]? with
    | none => rw [hsk] at he; cases he
    | some e0 =>
      rw [hsk] at he
      simp only [Option.map_some', Option.some.injEq] at he
      subst he
      obtain ⟨tt, tb, act⟩ := e0
      cases tb with
      | some t => simp [afterClick, TabElem.isPanel] at hp
      | none =>
        have hb0 : tt.isSome = true := by simpa [afterClick, TabElem.isButton] using hb
        simp [afterClick, TabElem.isButton, hb0]
  have hB : ∀ (k : Nat) (e : TabElem) (t : JSString), (runTabs d clicks)[k]? = some e →
      e.tab = some t →
      (e.active = true ↔ t = target) := by
    intro k e t he ht
    rw [hget k] at he
    cases hsk : s[k]? with
    | none => rw [hsk] at he; cases he
    | some e0 =>
      rw [hsk] at he
      simp only [Option.map_some', Option.some.injEq] at he
      subst he
      obtain ⟨tt, tb, act⟩ := e0
      have htb : tb = some t := by simpa [afterClick] using ht
      subst htb
      simp [afterClick]
  refine ⟨btn, target, hbtn, htarget, hshape, hA, hB, ?_, ?_⟩
  · intro hdis
    apply countP_le_one_of_index _ _ j
    intro k e he hp
    simp only [Bool.and_eq_true] at hp
    obtain ⟨e', hde', htt, htb⟩ := shape_getElem? _ d hshape k e he
    have hb' : e'.isButton = true := by
      simpa [TabElem.isButton, htt] using hp.1
    have hp' : e'.isPanel = false := hdis e' (List.getElem?_mem hde') hb'
    have hpe : e.isPanel = false := by
      simpa [TabElem.isPanel, htb] using hp'
    exact (hA k e he hp.1 hpe).mp hp.2
  · intro hnd
    apply countP_panel_le_one target
    · intro e he t ht
      obtain ⟨k, hk⟩ := List.getElem?_of_mem he
      exact hB k e t hk ht
    · have hfm : (runTabs d clicks).filterMap (·.tab) = d.filterMap (·.tab) := by
        have := congrArg (List.filterMap (fun a : Option JSString × Option JSString => a.2))
          hshape
        simpa [List.filterMap_map, Function.comp_def] using this
      rw [hfm]
      exact hnd

/-- C6, at two triggers and their two panels, after load and clicks on the
second, the first and the second trigger. -/
theorem tabs_active_marker_witness :
    runTabs twoTabs [1, 0, 1] =
        [⟨some (lit "html"), none, false⟩, ⟨some (lit "css"), none, true⟩,
          ⟨none, some (lit "html"), false⟩, ⟨none, some (lit "css"), true⟩] ∧
      activeButtons (runTabs twoTabs [1, 0, 1]) ≤ 1 ∧
      activePanels (runTabs twoTabs [1, 0, 1]) ≤ 1 := by
  obtain ⟨_, _, _, _, _, _, _, hb, hp⟩ := tabs_active_marker twoTabs [1, 0, 1]
    (by decide) (by decide)
  exact ⟨by decide, hb (by decide), hp (by decide)⟩

/-! ## The theme toggle -/

theorem lit_dark_ne_light : lit "dark" ≠ lit "light" := by decide

theorem loadTheme_dark_iff (st : ThemeState) :
    (loadTheme st).dark = true ↔ st.stored = some (lit "dark") := by
  obtain ⟨d, stored⟩ := st
  cases stored with
  | none => simp [loadTheme, savedTheme, applyTheme, Ne.symm lit_dark_ne_light]
  | some v =>
    by_cases hv : v = []
    · subst hv
      have h1 : ([] : JSString) ≠ lit "dark" := by decide
      simp [loadTheme, savedTheme, applyTheme, Ne.symm lit_dark_ne_light, h1]
    · by_cases hd : v = lit "dark"
      · subst hd
        simp [loadTheme, savedTheme, applyTheme, hv]
      · simp [loadTheme, savedTheme, applyTheme, hv, hd]

theorem loadTheme_stored (st : ThemeState) : (loadTheme st).stored = st.stored := by
  unfold loadTheme applyTheme
  split <;> rfl

theorem toggleTheme_stored (s : ThemeState) :
    (toggleTheme s).stored = some (if (toggleTheme s).dark then lit "dark" else lit "light") :=
  rfl

/-- In every state reached after load the class is present exactly when the
storage holds "dark". -/
theorem themeAfter_dark_iff (st : ThemeState) (n : Nat) :
    (themeAfter st n).dark = true ↔ (themeAfter st n).stored = some (lit "dark") := by
  cases n with
  | zero =>
    show (loadTheme st).dark = true ↔ (loadTheme st).stored = _
    rw [loadTheme_stored]
    exact loadTheme_dark_iff st
  | succ k =>
    show (toggleTheme _).dark = true ↔ (toggleTheme _).stored = _
    rw [toggleTheme_stored]
    cases h : (toggleTheme (themeAfter st k)).dark
    · simp [Ne.symm lit_dark_ne_light]
    · simp

theorem toggleTheme_twice (s : ThemeState) :
    (toggleTheme (toggleTheme s)).dark = s.dark ∧
      (toggleTheme (toggleTheme s)).stored = some (if s.dark then lit "dark" else lit "light") := by
  obtain ⟨d, stored⟩ := s
  cases d <;> exact ⟨rfl, rfl⟩

/-- C7, as the specification words it, fails when the storage has no entry at
load: after two toggles the storage holds "light". -/
theorem theme_no_entry_counterexample :
    ¬ ((toggleTheme (toggleTheme (themeAfter ⟨false, none⟩ 0))).stored =
        (themeAfter ⟨false, none⟩ 0).stored) := by
  decide

/-- C7, amended: in every state reached after load, two activations of a
toggle return the dark class to what it was and leave "dark" persisted when
the class is present and "light" when it is absent; the persisted value is
what it was before whenever the storage held "dark" or "light" then, which is
so after any toggle. -/
theorem theme_toggle_twice (st : ThemeState) (n : Nat) :
    (toggleTheme (toggleTheme (themeAfter st n))).dark = (themeAfter st n).dark ∧
      (toggleTheme (toggleTheme (themeAfter st n))).stored =
        some (if (themeAfter st n).dark then lit "dark" else lit "light") ∧
      (((themeAfter st n).stored = some (lit "dark") ∨
          (themeAfter st n).stored = some (lit "light")) →
        (toggleTheme (toggleTheme (themeAfter st n))).stored = (themeAfter st n).stored) ∧
      (1 ≤ n →
        (toggleTheme (toggleTheme (themeAfter st n))).stored = (themeAfter st n).stored) := by
  have h2 := toggleTheme_twice (themeAfter st n)
  have hinv := themeAfter_dark_iff st n
  have key : ((themeAfter st n).stored = some (lit "dark") ∨
      (themeAfter st n).stored = some (lit "light")) →
      (toggleTheme (toggleTheme (themeAfter st n))).stored = (themeAfter st n).stored := by
    intro h
    rw [h2.2]
    rcases h with h | h
    · rw [hinv.mpr h, h]; rfl
    · have hd : (themeAfter st n).dark = false := by
        cases hdk : (themeAfter st n).dark with
        | false => rfl
        | true =>
          have := hinv.mp hdk
          rw [h] at this
          exact absurd (Option.some.inj this).symm lit_dark_ne_light
      rw [hd, h]; rfl
  refine ⟨h2.1, h2.2, key, ?_⟩
  intro hn
  apply key
  obtain ⟨k, rfl⟩ : ∃ k, n = k + 1 := ⟨n - 1, by omega⟩
  have hs : (themeAfter st (k + 1)).stored =
      some (if (themeAfter st (k + 1)).dark then lit "dark" else lit "light") :=
    toggleTheme_stored (themeAfter st k)
  cases hdk : (themeAfter st (k + 1)).dark with
  | false => right; rw [hs, hdk]; rfl
  | true => left; rw [hs, hdk]; rfl

/-- C7, at a storage that holds "dark" at load. -/
theorem theme_toggle_twice_witness :
    (toggleTheme (toggleTheme (themeAfter ⟨false, some (lit "dark")⟩ 0))).stored =
        (themeAfter ⟨false, some (lit "dark")⟩ 0).stored ∧
      (toggleTheme (toggleTheme (themeAfter ⟨false, none⟩ 1))).stored =
        (themeAfter ⟨false, none⟩ 1).stored :=
  ⟨(theme_toggle_twice ⟨false, some (lit "dark")⟩ 0).2.2.1 (Or.inl (by decide)),
    (theme_toggle_twice ⟨false, none⟩ 1).2.2.2 (by decide)⟩

/-- C9: after initialisation the dark class is present exactly when the
stored value is "dark" (the load leaves the storage as it is), and after each
toggle the class is flipped and the persisted value is "dark" when the class
is present and "light" when it is absent. -/
theorem theme_class_matches_storage (st : ThemeState) (n : Nat) :
    ((themeAfter st 0).dark = true ↔ st.stored = some (lit "dark")) ∧
      (themeAfter st 0).stored = st.stored ∧
      (themeAfter st (n + 1)).dark = !(themeAfter st n).dark ∧
      (themeAfter st (n + 1)).stored =
        some (if (themeAfter st (n + 1)).dark then lit "dark" else lit "light") :=
  ⟨loadTheme_dark_iff st, loadTheme_stored st, rfl, toggleTheme_stored (themeAfter st n)⟩

/-! ## The counter widget -/

theorem runCounter_count (evs : List CounterEvent) :
    ∀ s : Counter, (runCounter s evs).count = s.count + clicksIn evs := by
  induction evs with
  | nil => intro s; simp [runCounter, clicksIn]
  | cons ev evs ih =>
    intro s
    have hstep : runCounter s (ev :: evs) = runCounter (counterStep s ev) evs := rfl
    rw [hstep, ih]
    cases ev with
    | click =>
      have hc : (counterStep s .click).count = s.count + 1 := by
        simp only [counterStep, counterClick]
        split <;> rfl
      have hn : clicksIn (CounterEvent.click :: evs) = clicksIn evs + 1 := by
        simp [clicksIn]
      rw [hc, hn]; omega
    | timeout =>
      have hc : (counterStep s .timeout).count = s.count := by
        simp only [counterStep, counterTimeout]
        split <;> rfl
      have hn : clicksIn (CounterEvent.timeout :: evs) = clicksIn evs := by
        simp [clicksIn]
      rw [hc, hn]

/-- C8: whatever removal callbacks have run in between, the n-th click since
load (n ≥ 1) makes the display show n, and it puts the display into the
milestone state, scheduling one more removal, exactly when n is a multiple of
5; any other click leaves the class and the scheduled removals as they are. -/
theorem counter_click (display : JSString) (milestone : Bool) (evs : List CounterEvent)
    (n : Nat) (hn : 1 ≤ n) (hclicks : clicksIn evs = n - 1) :
    (counterClick (runCounter (counterInit display milestone) evs)).count = n ∧
      (counterClick (runCounter (counterInit display milestone) evs)).display =
        lit (toString n) ∧
      (n % 5 = 0 →
        (counterClick (runCounter (counterInit display milestone) evs)).milestone = true ∧
        (counterClick (runCounter (counterInit display milestone) evs)).pending =
          (runCounter (counterInit display milestone) evs).pending + 1) ∧
      (n % 5 ≠ 0 →
        (counterClick (runCounter (counterInit display milestone) evs)).milestone =
          (runCounter (counterInit display milestone) evs).milestone ∧
        (counterClick (runCounter (counterInit display milestone) evs)).pending =
          (runCounter (counterInit display milestone) evs).pending) := by
  have hc : (runCounter (counterInit display milestone) evs).count + 1 = n := by
    rw [runCounter_count, hclicks]
    simp only [counterInit]
    omega
  generalize runCounter (counterInit display milestone) evs = s at hc ⊢
  subst hc
  by_cases h5 : (s.count + 1) % 5 = 0
  · simp [counterClick, h5]
  · simp [counterClick, h5]

/-- C8, at the fifth click, the removal scheduled by no earlier click. -/
theorem counter_click_witness :
    (counterClick (runCounter (counterInit [] false)
        [.click, .click, .click, .click])).display = [0x35] ∧
      (counterClick (runCounter (counterInit [] false)
        [.click, .click, .click, .click])).milestone = true :=
  have h := counter_click [] false [.click, .click, .click, .click] 5 (by decide) (by decide)
  ⟨h.2.1.trans (by decide), (h.2.2.1 (by decide)).1⟩

end Script
